import Mathlib

/-!
Verification of the PsybroBot link-ingestion pipeline (src/psybrobot.py).

The Python source is shallowly embedded below.  Pure helpers become Lean
functions on `String` / `List Char`; the Google-Sheets store becomes an
explicit `Store` value threaded through the operations; network calls
(song.link, MusicBrainz, Discogs, the system clock, Telegram identities)
are modelled as oracle inputs passed in by the caller, since none of the
verified properties depends on their values.  Character-class helpers
(`\w`, `\s`, `str.upper`/`str.lower`) are modelled at ASCII precision,
which covers every input considered here.
-/

namespace PsybroBot

/-- Embeds the constant `MASTER_SHEET = "Master"`. -/
def MASTER_SHEET : String := "Master"

/-- Embeds `HEADERS_MASTER` (psybrobot.py lines 51-54). -/
def HEADERS_MASTER : List String :=
  ["Timestamp", "SharedBy", "SourceChat", "MessageLink",
   "Platform", "Artist", "Title", "URL", "Tags", "Notes", "Álbum", "Año"]

/-- Embeds `PLATFORM_HOSTS` (lines 64-70); the list order is the Python
dict insertion order, which `detect_platform` iterates. -/
def PLATFORM_HOSTS : List (String × List String) :=
  [("youtube", ["youtu.be", "youtube.com", "www.youtube.com", "m.youtube.com", "music.youtube.com"]),
   ("spotify", ["open.spotify.com", "spotify.link"]),
   ("soundcloud", ["soundcloud.com"]),
   ("appleMusic", ["apple.com", "music.apple.com"]),
   ("bandcamp", ["bandcamp.com"])]

/-- Python `str.strip()` (ASCII whitespace). -/
def pyStrip (s : String) : String :=
  String.mk (((s.toList.dropWhile Char.isWhitespace).reverse.dropWhile Char.isWhitespace).reverse)

/-- Python `str.lower()` (ASCII). -/
def pyLower (s : String) : String := String.mk (s.toList.map Char.toLower)

/-- Checks that the pattern (first argument) is an initial run of the
candidate (second argument). -/
def leadMatch : List Char → List Char → Bool
  | [], _ => true
  | _ :: _, [] => false
  | p :: ps, c :: cs => p == c && leadMatch ps cs

/-- Python `str.startswith`. -/
def pyStartsWith (s pre : String) : Bool := leadMatch pre.toList s.toList

/-- Python `" ".join(...)`. -/
def joinSpace : List String → String
  | [] => ""
  | [x] => x
  | x :: xs => x ++ " " ++ joinSpace xs

/-- Python `str.split()` worker: split on whitespace runs, no empty
tokens.  Structurally recursive on a fuel argument; every step consumes
at least one input character, so fuel equal to the input length is
always sufficient. -/
def splitWsGo : Nat → List Char → List String
  | 0, _ => []
  | _, [] => []
  | fuel + 1, c :: cs =>
    if c.isWhitespace then splitWsGo fuel cs
    else
      let tok := cs.takeWhile (fun ch => !ch.isWhitespace)
      String.mk (c :: tok) :: splitWsGo fuel (cs.drop tok.length)

/-- Python `str.split()`. -/
def splitWs (cs : List Char) : List String := splitWsGo cs.length cs

/-- Python `str.split()` on a `String`. -/
def pySplit (s : String) : List String := splitWs s.toList

/-- Python `text.split(maxsplit=1)` restricted to what `add_cmd` needs:
`none` when fewer than two parts result. -/
def splitMax1 (s : String) : Option (String × String) :=
  let cs := s.toList.dropWhile Char.isWhitespace
  let tok := cs.takeWhile (fun c => !c.isWhitespace)
  let rest := (cs.drop tok.length).dropWhile Char.isWhitespace
  if tok.isEmpty then none
  else if rest.isEmpty then none
  else some (String.mk tok, String.mk rest)

/-- Python regex `\w` at ASCII precision. -/
def isWordChar (c : Char) : Bool := c.isAlphanum || c == '_'

/-- A character that terminates the URL body `[^\s<>\]]+`. -/
def isUrlStop (c : Char) : Bool := c.isWhitespace || c == '<' || c == '>' || c == ']'

/-- Case-insensitive literal match: the pattern (given lowercase) against
the input; returns the remaining input on success. -/
def matchCI : List Char → List Char → Option (List Char)
  | [], cs => some cs
  | _ :: _, [] => none
  | p :: ps, c :: cs => if c.toLower == p then matchCI ps cs else none

/-- Length of the `(https?://|www\.)` alternative matched at the head of
the input, if any (case-insensitive, greedy `s?` as in the regex). -/
def schemeLen (cs : List Char) : Option Nat :=
  if (matchCI "https://".toList cs).isSome then some 8
  else if (matchCI "http://".toList cs).isSome then some 7
  else if (matchCI "www.".toList cs).isSome then some 4
  else none

/-- Embeds `URL_RE.finditer` (line 60): the regex
`(https?://|www\.)[^\s<>\]]+` with `re.IGNORECASE`, scanned left to right,
non-overlapping, advancing one character on a failed position. -/
def findUrlsGo : Nat → List Char → List String
  | 0, _ => []
  | _, [] => []
  | fuel + 1, c :: cs =>
    match schemeLen (c :: cs) with
    | some k =>
      let body := ((c :: cs).drop k).takeWhile (fun ch => !isUrlStop ch)
      if body.isEmpty then findUrlsGo fuel cs
      else String.mk ((c :: cs).take k ++ body) :: findUrlsGo fuel ((c :: cs).drop (k + body.length))
    | none => findUrlsGo fuel cs

/-- The URL scanner on a character list; each scanning step consumes at
least one character, so fuel equal to the length always suffices. -/
def findUrls (cs : List Char) : List String := findUrlsGo cs.length cs

/-- Embeds `TAG_RE.findall` (line 61): the regex `#(?!ascucha\b)\w+`.
Matches keep their leading `#` (the pattern has no capture group); the
lookahead rejects exactly the word `ascucha` (case-sensitively) right
after the `#`. -/
def findTagsGo : Nat → List Char → List String
  | 0, _ => []
  | _, [] => []
  | fuel + 1, c :: cs =>
    if c == '#' then
      let w := cs.takeWhile isWordChar
      if w.isEmpty then findTagsGo fuel cs
      else if w == "ascucha".toList then findTagsGo fuel cs
      else String.mk ('#' :: w) :: findTagsGo fuel (cs.drop w.length)
    else findTagsGo fuel cs

/-- The tag scanner on a character list; each scanning step consumes at
least one character, so fuel equal to the length always suffices. -/
def findTags (cs : List Char) : List String := findTagsGo cs.length cs

/-- Holds when the (lowercase) pattern matches case-insensitively at the
head of the input. -/
def leadMatchCI (ps cs : List Char) : Bool := (matchCI ps cs).isSome

/-- Embeds `ASC_LINK_RE.finditer` (line 62): the regex
`#ascucha\s+((https?://|www\.)[^\s<>\]]+)` with `re.IGNORECASE`,
returning the captured URL group.  On a successful `#ascucha` literal the
remaining input is its 8-character suffix, written as `drop 8`. -/
def findAscLinksGo : Nat → List Char → List String
  | 0, _ => []
  | _, [] => []
  | fuel + 1, c :: cs =>
    if leadMatchCI "#ascucha".toList (c :: cs) then
      let rest1 := (c :: cs).drop 8
      let wsRun := rest1.takeWhile Char.isWhitespace
      if wsRun.isEmpty then findAscLinksGo fuel cs
      else
        let rest2 := rest1.drop wsRun.length
        match schemeLen rest2 with
        | some k =>
          let body := (rest2.drop k).takeWhile (fun ch => !isUrlStop ch)
          if body.isEmpty then findAscLinksGo fuel cs
          else String.mk (rest2.take k ++ body) :: findAscLinksGo fuel (rest2.drop (k + body.length))
        | none => findAscLinksGo fuel cs
    else findAscLinksGo fuel cs

/-- The `#ascucha`-link scanner; each scanning step consumes at least one
character, so fuel equal to the length always suffices. -/
def findAscLinks (cs : List Char) : List String := findAscLinksGo cs.length cs

/-- Embeds the `netloc` extraction of `urllib.parse.urlparse` as used by
`detect_platform`: strip a syntactically valid `scheme:` if present, then
take the run after a leading `//` up to the next `/`, `?` or `#`.
Malformed URLs simply produce a host that matches no platform (the Python
code catches any exception and returns `None`). -/
def netlocOf (url : String) : String :=
  let cs := url.toList
  let pre := cs.takeWhile (fun c => !(c == ':'))
  let rest :=
    if pre.length < cs.length && !pre.isEmpty &&
        (pre.headD ' ').isAlpha &&
        pre.all (fun c => c.isAlphanum || c == '+' || c == '-' || c == '.')
    then cs.drop (pre.length + 1) else cs
  match rest with
  | '/' :: '/' :: r => String.mk (r.takeWhile (fun c => !(c == '/' || c == '?' || c == '#')))
  | _ => ""

/-- Embeds `detect_platform` (lines 274-283): lowercase the host and find
the first platform whose host set contains it; `None` otherwise, and no
exception ever propagates. -/
def detectPlatform (url : String) : Option String :=
  let host := pyLower (netlocOf url)
  (PLATFORM_HOSTS.find? (fun p => p.2.contains host)).map (fun p => p.1)

/-- The keep-test of the `extract_notes` loop (lines 303-308): a fragment
hit by any exclusion is kept only when it begins with a Telegram
message-permalink; otherwise it is kept unconditionally. -/
def notesKeep (tags urls metaWords : List String) (f : String) : Bool :=
  if f ∈ tags ∨ f ∈ urls ∨ f ∈ metaWords ∨ f = "/add" ∨
      pyStartsWith f "#" = true ∨ pyLower f = "#ascucha" then
    pyStartsWith f "https://t.me/" || pyStartsWith f "http://t.me/"
  else true

/-- The `notes_fragments` list built by `extract_notes` (lines 295-309). -/
def extractNotesFragments (text meta : String) : List String :=
  let tags := findTags text.toList
  let urls := findUrls text.toList
  let metaWords := pySplit meta
  (pySplit text).filter (fun f => notesKeep tags urls metaWords f)

/-- Embeds `extract_notes` (lines 295-309). -/
def extractNotes (text meta : String) : String :=
  joinSpace (extractNotesFragments text meta)

/-- The tag list and `tags_str` computed identically in `add_cmd`
(lines 462-464) and `catch_links` (lines 521-523):
`" ".join(f"#{t}" for t in tags)` over the `TAG_RE` matches whose
lowercasing is not the bare word `ascucha`. -/
def tagsStrOf (text : String) : String :=
  let tags := (findTags text.toList).filter (fun tg => !(pyLower tg == "ascucha"))
  joinSpace (tags.map (fun tg => "#" ++ tg))

/-- First-occurrence deduplication worker (the key order of a Python
`Counter`), with an accumulator of already-seen values. -/
def dedupGo : List String → List String → List String
  | [], _ => []
  | x :: xs, seen => if x ∈ seen then dedupGo xs seen else x :: dedupGo xs (x :: seen)

/-- Distinct values of a list in order of first occurrence: the iteration
order of `Counter(vals)`. -/
def dedupFirst (l : List String) : List String := dedupGo l []

/-- The `(value, count)` pairs of `Counter(vals)` in insertion order. -/
def tally (vals : List String) : List (String × Nat) :=
  (dedupFirst vals).map (fun v => (v, vals.count v))

/-- Stable descending insertion by count: an earlier pair stays ahead of
any later pair of equal count. -/
def insertDesc (p : String × Nat) : List (String × Nat) → List (String × Nat)
  | [] => [p]
  | q :: qs => if q.2 ≤ p.2 then p :: q :: qs else q :: insertDesc p qs

/-- Stable descending sort by count. -/
def sortDesc : List (String × Nat) → List (String × Nat)
  | [] => []
  | p :: ps => insertDesc p (sortDesc ps)

/-- Embeds `Counter(vals).most_common(2)`: the two highest-count entries,
ordered by count descending with first-observation order breaking ties
(the documented behaviour of `heapq.nlargest` under `most_common`). -/
def mostCommon2 (vals : List String) : List (String × Nat) :=
  (sortDesc (tally vals)).take 2

/-- One field block of `consolidate_metadata` (each of the three blocks
at lines 162-203 repeats this code verbatim for its field): empty input
gives `""`; a single tallied value gives that value; a tie between the
two most common gives `v1 ó v2`; otherwise the most common value. -/
def consolidateField (vals : List String) : String :=
  if vals.isEmpty then ""
  else
    match mostCommon2 vals with
    | [] => ""
    | [p] => p.1
    | p :: q :: _ => if p.2 = q.2 then p.1 ++ " ó " ++ q.1 else p.1

/-- A metadata dict returned by one provider; a missing or falsy entry is
the empty string, matching the `m.get("year")` truthiness filters. -/
structure ProviderMeta where
  year : String := ""
  bpm : String := ""
  key : String := ""
deriving DecidableEq

/-- The dict returned by `consolidate_metadata`. -/
structure MetaOut where
  year : String
  bpm : String
  key : String
deriving DecidableEq

/-- Embeds `consolidate_metadata` (lines 155-205). -/
def consolidateMetadata (ms : List ProviderMeta) : MetaOut :=
  { year := consolidateField ((ms.map (fun m => m.year)).filter (fun v => !(v == ""))),
    bpm := consolidateField ((ms.map (fun m => m.bpm)).filter (fun v => !(v == ""))),
    key := consolidateField ((ms.map (fun m => m.key)).filter (fun v => !(v == ""))) }

/-- A worksheet: its rows in order, row 1 being the header row.  Models a
gspread worksheet as the code uses it (`row_values`, `col_values`,
`append_row`, `clear`, `update("1:1", ...)`). -/
structure Worksheet where
  rows : List (List String)
deriving DecidableEq

/-- The mutable state the pipeline touches: the spreadsheet (a titled
list of worksheets, `sh.worksheet` returning the first title match and
`add_worksheet` appending) and the process-wide `CACHE_URLS_REGISTERED`
set (modelled as a list, membership being all the code uses). -/
structure Store where
  sheets : List (String × Worksheet)
  cache : List String
deriving DecidableEq

/-- Worksheet lookup by title. -/
def findWsList : List (String × Worksheet) → String → Option Worksheet
  | [], _ => none
  | p :: ps, n => if p.1 == n then some p.2 else findWsList ps n

/-- Worksheet lookup in a store (`sh.worksheet(name)`). -/
def findWsStore (s : Store) (name : String) : Option Worksheet := findWsList s.sheets name

/-- Replace the first worksheet of that title, or add one at the end. -/
def setWsList : List (String × Worksheet) → String → Worksheet → List (String × Worksheet)
  | [], n, w => [(n, w)]
  | p :: ps, n, w => if p.1 == n then (n, w) :: ps else p :: setWsList ps n w

/-- Store update of one worksheet. -/
def setWs (s : Store) (name : String) (w : Worksheet) : Store :=
  { s with sheets := setWsList s.sheets name w }

/-- Models `ws.col_values(n)` (1-based): the n-th cell of every row,
empty for short rows.  gspread drops trailing empty cells; the callers
filter out empty strings anyway, so membership is unaffected. -/
def colValues (ws : Worksheet) (n : Nat) : List String :=
  ws.rows.map (fun r => r.getD (n - 1) "")

/-- Embeds `ensure_headers_in_sheet` (lines 311-322): create the sheet
with the canonical header if missing; otherwise, when the stripped first
row differs from `HEADERS_MASTER`, `ws.clear()` the whole sheet and
re-append the header. -/
def ensureHeadersInSheet (s : Store) (name : String) : Store :=
  match findWsStore s name with
  | none => setWs s name ⟨[HEADERS_MASTER]⟩
  | some ws =>
    if (ws.rows.headD []).map pyStrip == HEADERS_MASTER then s
    else setWs s name ⟨[HEADERS_MASTER]⟩

/-- Embeds `ensure_columns` (lines 324-334): append each missing required
column to the header row and, when anything was added, rewrite row 1
(`ws.update("1:1", ...)`). -/
def ensureColumnsWs (ws : Worksheet) (required : List String) : Worksheet :=
  let headers := ws.rows.headD []
  let newHeaders := required.foldl (fun hs col => if hs.contains col then hs else hs ++ [col]) headers
  if newHeaders == headers then ws else ⟨newHeaders :: ws.rows.tail⟩

/-- Embeds `append_row_to_sheet` (lines 389-394): ensure headers, ensure
the `Álbum`/`Año`/`Tono`/`BPM` columns, then append the row. -/
def appendRowToSheet (s : Store) (name : String) (row : List String) : Store :=
  match findWsStore (ensureHeadersInSheet s name) name with
  | none => ensureHeadersInSheet s name
  | some ws =>
    setWs (ensureHeadersInSheet s name) name
      ⟨(ensureColumnsWs ws ["Álbum", "Año", "Tono", "BPM"]).rows ++ [row]⟩

/-- Embeds `row_exists_by_url_in_sheet` (lines 336-349): a Master query
first consults the in-memory cache; otherwise column 8 of the sheet is
read, non-empty cells are stripped into a set (refreshing the cache for
Master), and the stripped URL is looked up.  A missing sheet holds no
URLs.  Returns the answer together with the store (whose cache may have
been rebuilt). -/
def rowExistsByUrlInSheet (s : Store) (url sheetName : String) : Bool × Store :=
  if sheetName == MASTER_SHEET && s.cache.contains url then (true, s)
  else
    match findWsStore s sheetName with
    | none => (false, s)
    | some ws =>
      let urlSet := ((colValues ws 8).filter (fun u => !(u == ""))).map pyStrip
      if sheetName == MASTER_SHEET then
        (urlSet.contains (pyStrip url), { s with cache := urlSet })
      else
        (urlSet.contains (pyStrip url), s)

/-- Normalization of a tag word into a sheet name (line 420):
`tag_name[0].upper() + tag_name[1:].lower()` (ASCII). -/
def normSheetName (t : String) : String :=
  match t.toList with
  | [] => ""
  | c :: rest => String.mk (c.toUpper :: rest.map Char.toLower)

/-- The row assembled by `append_row` (lines 400-404); `ts` stands for
the `datetime.now(...)` timestamp, supplied by the caller since the clock
is external.  `platform` is the only possibly-`None` entry, replaced by
`""` as in `[x if x is not None else "" for x in row]`. -/
def mkRow (ts sharedBy sourceChat artist title url messageLink tagsStr notesStr album year key bpm : String) : List String :=
  [ts, sharedBy, sourceChat, messageLink, (detectPlatform url).getD "",
   artist, title, url, tagsStr, notesStr, album, year, key, bpm]

/-- Embeds `append_row` (lines 396-425), the fan-out routine: append to
Master unless the URL already exists there; with no tags, append to
`Undefined` (if absent) and return; with tags, append to each normalized
tag sheet where the URL is absent, and finally append to `Undefined`
(if absent) unconditionally of the tags. -/
def appendRow (s : Store) (ts sharedBy sourceChat artist title url messageLink tagsStr notesStr album year key bpm : String) : Store :=
  let row := mkRow ts sharedBy sourceChat artist title url messageLink tagsStr notesStr album year key bpm
  let s2 :=
    match rowExistsByUrlInSheet s url MASTER_SHEET with
    | (true, s1) => s1
    | (false, s1) => appendRowToSheet s1 MASTER_SHEET row
  match pySplit tagsStr with
  | [] =>
    (match rowExistsByUrlInSheet s2 url "Undefined" with
     | (true, s3) => s3
     | (false, s3) => appendRowToSheet s3 "Undefined" row)
  | tag0 :: tagsRest =>
    let s4 := (tag0 :: tagsRest).foldl (fun st tag =>
      if !(tag == "") && !(tag == "#ascucha") then
        let tagName := String.mk (tag.toList.dropWhile (fun ch => ch == '#'))
        if tagName == "" then st
        else
          let sheetNm := normSheetName tagName
          match rowExistsByUrlInSheet st url sheetNm with
          | (true, st1) => st1
          | (false, st1) => appendRowToSheet st1 sheetNm row
      else st) s2
    match rowExistsByUrlInSheet s4 url "Undefined" with
    | (true, s5) => s5
    | (false, s5) => appendRowToSheet s5 "Undefined" row

/-- The outcome reported back to the chat adapter. -/
inductive Outcome where
  | usageError
  | unrecognizedPlatform
  | duplicateUrl
  | recorded
  | ignored
deriving DecidableEq

/-- The consolidated metadata record built by `get_songlink_metadata`
plus `get_enhanced_metadata`; network calls are modelled as this oracle
input, whose values none of the verified properties depends on. -/
structure Enhanced where
  artist : String := ""
  title : String := ""
  album : String := ""
  year : String := ""
  key : String := ""
  bpm : String := ""

/-- Embeds `add_cmd` (lines 436-506), command-mode ingestion, with the
sender/chat/permalink/clock/metadata oracles as parameters.  The
`ALLOWED_CHAT_ID` authorization gate and the reply transport are adapter
concerns outside the embedded core. -/
def addCmd (s : Store) (text : String) (md : Enhanced) (ts sharedBy sourceChat messageLink : String) : Outcome × Store :=
  let t := pyStrip text
  match splitMax1 t with
  | none => (Outcome.usageError, s)
  | some (_, rest) =>
    match findUrls rest.toList with
    | [] => (Outcome.usageError, s)
    | firstUrl :: restUrls =>
      match detectPlatform firstUrl with
      | none => (Outcome.unrecognizedPlatform, s)
      | some _ =>
        match rowExistsByUrlInSheet s firstUrl MASTER_SHEET with
        | (true, s1) => (Outcome.duplicateUrl, s1)
        | (false, s1) =>
          let tagsStr := tagsStrOf t
          let notes0 := extractNotes t ""
          let notesStr := if restUrls.isEmpty then notes0 else pyStrip (notes0 ++ " " ++ joinSpace restUrls)
          (Outcome.recorded,
           appendRow s1 ts sharedBy sourceChat md.artist md.title firstUrl messageLink
             tagsStr notesStr md.album md.year md.key md.bpm)

/-- Embeds `catch_links` (lines 508-571), passive-mode ingestion over the
HTML text, gated on `#ascucha`-preceded links. -/
def catchLinks (s : Store) (text : String) (md : Enhanced) (ts sharedBy sourceChat messageLink : String) : Outcome × Store :=
  match findAscLinks text.toList with
  | [] => (Outcome.ignored, s)
  | firstUrl :: restUrls =>
    let tagsStr := tagsStrOf text
    let notes0 := extractNotes text ""
    let notesStr := if restUrls.isEmpty then notes0 else pyStrip (notes0 ++ " " ++ joinSpace restUrls)
    match detectPlatform firstUrl with
    | none => (Outcome.unrecognizedPlatform, s)
    | some _ =>
      match rowExistsByUrlInSheet s firstUrl MASTER_SHEET with
      | (true, s1) => (Outcome.duplicateUrl, s1)
      | (false, s1) =>
        (Outcome.recorded,
         appendRow s1 ts sharedBy sourceChat md.artist md.title firstUrl messageLink
           tagsStr notesStr md.album md.year md.key md.bpm)

/-- Helper for statements: whether the raw URL occurs in column 8 of the
named sheet. -/
def sheetHasUrl (s : Store) (name url : String) : Bool :=
  match findWsStore s name with
  | none => false
  | some ws => (colValues ws 8).contains url

/-- The empty spreadsheet with an empty dedup cache. -/
def emptyStore : Store := ⟨[], []⟩

/-- An all-empty metadata oracle (every provider degraded). -/
def emptyMeta : Enhanced := {}

theorem findWsList_setWsList_self (l : List (String × Worksheet)) (n : String) (w : Worksheet) :
    findWsList (setWsList l n w) n = some w := by
  induction l with
  | nil => simp [setWsList, findWsList]
  | cons p ps ih =>
    simp only [setWsList]
    split
    · simp [findWsList]
    · rename_i h
      simp [findWsList, h, ih]

theorem findWsList_setWsList_ne (l : List (String × Worksheet)) (n m : String) (w : Worksheet)
    (h : m ≠ n) : findWsList (setWsList l n w) m = findWsList l m := by
  induction l with
  | nil =>
    simp [setWsList, findWsList]
    intro hc
    exact absurd hc.symm h
  | cons p ps ih =>
    simp only [setWsList]
    split
    · rename_i hp
      simp only [findWsList]
      have hp1 : p.1 = n := by simpa using hp
      have hnm : (n == m) = false := by
        simp only [beq_eq_false_iff_ne, ne_eq]
        exact fun hx => h hx.symm
      rw [hnm, hp1, hnm]
      simp
    · simp only [findWsList, ih]

theorem findWsStore_setWs_self (s : Store) (n : String) (w : Worksheet) :
    findWsStore (setWs s n w) n = some w :=
  findWsList_setWsList_self s.sheets n w

theorem findWsStore_setWs_ne (s : Store) (n m : String) (w : Worksheet) (h : m ≠ n) :
    findWsStore (setWs s n w) m = findWsStore s m :=
  findWsList_setWsList_ne s.sheets n m w h

theorem findWsStore_congr (s s' : Store) (h : s.sheets = s'.sheets) (n : String) :
    findWsStore s n = findWsStore s' n := by
  unfold findWsStore
  rw [h]

theorem rowExists_sheets (s : Store) (u n : String) :
    ((rowExistsByUrlInSheet s u n).2).sheets = s.sheets := by
  unfold rowExistsByUrlInSheet
  split
  · rfl
  · split
    · rfl
    · split <;> rfl

theorem ensureHeaders_found (s : Store) (n : String) :
    ∃ ws, findWsStore (ensureHeadersInSheet s n) n = some ws := by
  unfold ensureHeadersInSheet
  split
  · exact ⟨_, findWsStore_setWs_self s n _⟩
  · split
    · rename_i ws h _
      exact ⟨ws, h⟩
    · exact ⟨_, findWsStore_setWs_self s n _⟩

theorem ensureHeaders_other (s : Store) (n m : String) (h : m ≠ n) :
    findWsStore (ensureHeadersInSheet s n) m = findWsStore s m := by
  unfold ensureHeadersInSheet
  split
  · exact findWsStore_setWs_ne s n m _ h
  · split
    · rfl
    · exact findWsStore_setWs_ne s n m _ h

theorem appendRowToSheet_other (s : Store) (n : String) (r : List String) (m : String)
    (h : m ≠ n) : findWsStore (appendRowToSheet s n r) m = findWsStore s m := by
  unfold appendRowToSheet
  rcases h1 : findWsStore (ensureHeadersInSheet s n) n with _ | ws
  · simp only [h1]
    exact ensureHeaders_other s n m h
  · simp only [h1]
    rw [findWsStore_setWs_ne _ n m _ h]
    exact ensureHeaders_other s n m h

theorem appendRowToSheet_self (s : Store) (n : String) (r : List String) :
    ∃ rs, findWsStore (appendRowToSheet s n r) n = some ⟨rs ++ [r]⟩ := by
  unfold appendRowToSheet
  obtain ⟨ws, hws⟩ := ensureHeaders_found s n
  rw [hws]
  exact ⟨(ensureColumnsWs ws ["Álbum", "Año", "Tono", "BPM"]).rows,
    findWsStore_setWs_self _ n _⟩

theorem mem_dedupGo (l : List String) : ∀ (seen : List String) (a : String),
    a ∈ dedupGo l seen ↔ a ∈ l ∧ a ∉ seen := by
  induction l with
  | nil => intro seen a; simp [dedupGo]
  | cons x xs ih =>
    intro seen a
    simp only [dedupGo]
    split
    · rename_i hx
      rw [ih seen a]
      simp only [List.mem_cons]
      constructor
      · rintro ⟨h1, h2⟩
        exact ⟨Or.inr h1, h2⟩
      · rintro ⟨h1 | h1, h2⟩
        · exact absurd (h1 ▸ hx) h2
        · exact ⟨h1, h2⟩
    · rename_i hx
      simp only [List.mem_cons]
      constructor
      · rintro (h1 | h1)
        · exact ⟨Or.inl h1, h1 ▸ hx⟩
        · rw [ih] at h1
          obtain ⟨h2, h3⟩ := h1
          simp only [List.mem_cons] at h3
          push_neg at h3
          exact ⟨Or.inr h2, h3.2⟩
      · rintro ⟨h1 | h1, h2⟩
        · exact Or.inl h1
        · by_cases hax : a = x
          · exact Or.inl hax
          · refine Or.inr ?_
            rw [ih]
            refine ⟨h1, ?_⟩
            simp only [List.mem_cons]
            push_neg
            exact ⟨hax, h2⟩

theorem dedupGo_nodup (l : List String) : ∀ seen, (dedupGo l seen).Nodup := by
  induction l with
  | nil => intro seen; simp [dedupGo]
  | cons x xs ih =>
    intro seen
    simp only [dedupGo]
    split
    · exact ih seen
    · refine List.nodup_cons.mpr ⟨?_, ih _⟩
      intro hmem
      rw [mem_dedupGo] at hmem
      exact hmem.2 (List.mem_cons_self x seen)

theorem mem_dedupFirst (l : List String) (a : String) : a ∈ dedupFirst l ↔ a ∈ l := by
  unfold dedupFirst
  rw [mem_dedupGo]
  simp

theorem dedupFirst_nodup (l : List String) : (dedupFirst l).Nodup := dedupGo_nodup l []

theorem dedupGo_eq_nil (l : List String) (seen : List String) (h : ∀ x ∈ l, x ∈ seen) :
    dedupGo l seen = [] := by
  induction l with
  | nil => rfl
  | cons x xs ih =>
    simp only [dedupGo]
    rw [if_pos (h x (List.mem_cons_self x xs))]
    exact ih (fun y hy => h y (List.mem_cons_of_mem x hy))

theorem dedupFirst_all_eq (l : List String) (w : String) (h0 : l ≠ [])
    (h : ∀ x ∈ l, x = w) : dedupFirst l = [w] := by
  cases l with
  | nil => exact absurd rfl h0
  | cons x xs =>
    have hx : x = w := h x (List.mem_cons_self x xs)
    subst hx
    unfold dedupFirst
    simp only [dedupGo]
    rw [if_neg (List.not_mem_nil x)]
    rw [dedupGo_eq_nil xs [x] (fun y hy => by rw [h y (List.mem_cons_of_mem x hy)]; simp)]

/-- The order `most_common` sorts by: counts descending. -/
def RelDesc (a b : String × Nat) : Prop := b.2 ≤ a.2

theorem insertDesc_perm (p : String × Nat) (l : List (String × Nat)) :
    List.Perm (insertDesc p l) (p :: l) := by
  induction l with
  | nil => simp [insertDesc]
  | cons q qs ih =>
    simp only [insertDesc]
    split
    · exact List.Perm.refl _
    · exact (ih.cons q).trans (List.Perm.swap p q qs)

theorem sortDesc_perm (l : List (String × Nat)) : List.Perm (sortDesc l) l := by
  induction l with
  | nil => simp [sortDesc]
  | cons p ps ih =>
    simp only [sortDesc]
    exact (insertDesc_perm p (sortDesc ps)).trans (ih.cons p)

theorem insertDesc_pairwise (p : String × Nat) (l : List (String × Nat))
    (h : l.Pairwise RelDesc) : (insertDesc p l).Pairwise RelDesc := by
  induction l with
  | nil => simp [insertDesc]
  | cons q qs ih =>
    rw [List.pairwise_cons] at h
    obtain ⟨hq, hqs⟩ := h
    simp only [insertDesc]
    split
    · rename_i hle
      rw [List.pairwise_cons]
      refine ⟨?_, List.pairwise_cons.mpr ⟨hq, hqs⟩⟩
      intro b hb
      rcases List.mem_cons.mp hb with rfl | hb
      · exact hle
      · exact le_trans (hq b hb) hle
    · rename_i hgt
      rw [List.pairwise_cons]
      refine ⟨?_, ih hqs⟩
      intro b hb
      rcases List.mem_cons.mp ((insertDesc_perm p qs).mem_iff.mp hb) with rfl | hb2
      · exact le_of_lt (Nat.not_le.mp hgt)
      · exact hq b hb2

theorem sortDesc_pairwise (l : List (String × Nat)) : (sortDesc l).Pairwise RelDesc := by
  induction l with
  | nil => simp [sortDesc]
  | cons p ps ih =>
    exact insertDesc_pairwise p (sortDesc ps) ih

theorem tally_map_fst (vals : List String) : (tally vals).map Prod.fst = dedupFirst vals := by
  unfold tally
  rw [List.map_map]
  show List.map id (dedupFirst vals) = dedupFirst vals
  exact List.map_id (dedupFirst vals)

theorem mem_tally (vals : List String) (p : String × Nat) :
    p ∈ tally vals ↔ p.1 ∈ dedupFirst vals ∧ p.2 = vals.count p.1 := by
  unfold tally
  rw [List.mem_map]
  constructor
  · rintro ⟨a, ha, heq⟩
    rw [← heq]
    exact ⟨ha, rfl⟩
  · rintro ⟨h1, h2⟩
    refine ⟨p.1, h1, ?_⟩
    rw [← h2]

theorem consolidateField_all_eq (vals : List String) (w : String) (h0 : vals ≠ [])
    (h : ∀ x ∈ vals, x = w) : consolidateField vals = w := by
  have hd : dedupFirst vals = [w] := dedupFirst_all_eq vals w h0 h
  have ht : tally vals = [(w, vals.count w)] := by simp [tally, hd]
  have hne : vals.isEmpty = false := by
    cases vals
    · exact absurd rfl h0
    · rfl
  simp [consolidateField, mostCommon2, hne, ht, sortDesc, insertDesc]

theorem consolidateField_pair_tie (vals : List String) (v1 v2 : String)
    (hd : dedupFirst vals = [v1, v2]) (hc : vals.count v1 = vals.count v2) :
    consolidateField vals = v1 ++ " ó " ++ v2 := by
  have hv1 : v1 ∈ vals := by
    rw [← mem_dedupFirst, hd]
    simp
  have hne : vals.isEmpty = false := by
    cases vals
    · simp at hv1
    · rfl
  have ht : tally vals = [(v1, vals.count v1), (v2, vals.count v2)] := by simp [tally, hd]
  rw [hc] at ht
  simp [consolidateField, mostCommon2, hne, ht, sortDesc, insertDesc]

theorem consolidateField_unique_max (vals : List String) (v : String)
    (hv : v ∈ dedupFirst vals)
    (hmax : ∀ w ∈ dedupFirst vals, w ≠ v → vals.count w < vals.count v) :
    consolidateField vals = v := by
  have hvv : v ∈ vals := (mem_dedupFirst vals v).mp hv
  have hne2 : vals.isEmpty = false := by
    cases vals
    · simp at hvv
    · rfl
  have hperm : List.Perm (sortDesc (tally vals)) (tally vals) := sortDesc_perm (tally vals)
  have hmemT : (v, vals.count v) ∈ tally vals := by
    rw [mem_tally]
    exact ⟨hv, rfl⟩
  have hmemS : (v, vals.count v) ∈ sortDesc (tally vals) := hperm.mem_iff.mpr hmemT
  rcases hS : sortDesc (tally vals) with _ | ⟨p, rest⟩
  · rw [hS] at hmemS
    simp at hmemS
  · have hpairw := sortDesc_pairwise (tally vals)
    rw [hS] at hpairw hperm hmemS
    rw [List.pairwise_cons] at hpairw
    obtain ⟨hrel, hrestpw⟩ := hpairw
    have hpT : p ∈ tally vals := hperm.subset (List.mem_cons_self p rest)
    obtain ⟨hp1, hp2⟩ := (mem_tally vals p).mp hpT
    have hle : vals.count v ≤ p.2 := by
      rcases List.mem_cons.mp hmemS with he | hm
      · rw [← he]
      · exact hrel _ hm
    have hp1v : p.1 = v := by
      by_contra hne3
      have hx := hmax p.1 hp1 hne3
      omega
    have hnodup : ((p :: rest).map Prod.fst).Nodup :=
      (hperm.map Prod.fst).nodup_iff.mpr
        (by rw [tally_map_fst]; exact dedupFirst_nodup vals)
    unfold consolidateField mostCommon2
    rw [hS, hne2]
    cases rest with
    | nil => simpa using hp1v
    | cons q rest2 =>
      have hqT : q ∈ tally vals := hperm.subset (by simp)
      obtain ⟨hq1, hq2⟩ := (mem_tally vals q).mp hqT
      have hqv : q.1 ≠ v := by
        intro he
        rw [List.map_cons, List.map_cons, List.nodup_cons] at hnodup
        exact hnodup.1 (by simp [hp1v, he])
      have hlt : q.2 < p.2 := by
        have hx := hmax q.1 hq1 hqv
        omega
      simp only [List.take, Bool.false_eq_true, if_false]
      rw [if_neg (by omega)]
      exact hp1v

theorem insertDesc_filter_count (p : String × Nat) (l : List (String × Nat)) (c : Nat) :
    (insertDesc p l).filter (fun q => q.2 == c) =
      if p.2 = c then p :: l.filter (fun q => q.2 == c)
      else l.filter (fun q => q.2 == c) := by
  induction l with
  | nil =>
    by_cases hc : p.2 = c
    · simp [insertDesc, List.filter_cons, hc]
    · simp [insertDesc, List.filter_cons, hc]
  | cons q qs ih =>
    simp only [insertDesc]
    by_cases hc : p.2 = c
    · by_cases hq : q.2 ≤ p.2
      · rw [if_pos hq, if_pos hc]
        simp [List.filter_cons, hc]
      · rw [if_neg hq, if_pos hc]
        have hqc : (q.2 == c) = false := by
          rw [beq_eq_false_iff_ne]
          omega
        simp [List.filter_cons, hqc, ih, hc]
    · by_cases hq : q.2 ≤ p.2
      · rw [if_pos hq, if_neg hc]
        have hpc : (p.2 == c) = false := by
          rw [beq_eq_false_iff_ne]
          exact hc
        simp [List.filter_cons, hpc]
      · rw [if_neg hq, if_neg hc]
        simp [List.filter_cons, ih, hc]

theorem sortDesc_filter_count (l : List (String × Nat)) (c : Nat) :
    (sortDesc l).filter (fun q => q.2 == c) = l.filter (fun q => q.2 == c) := by
  induction l with
  | nil => rfl
  | cons p ps ih =>
    simp only [sortDesc]
    rw [insertDesc_filter_count]
    by_cases hc : p.2 = c
    · rw [if_pos hc, ih, List.filter_cons, if_pos (by simp [hc])]
    · rw [if_neg hc, ih, List.filter_cons, if_neg (by simp [hc])]

theorem filter_snd_map_count (vals : List String) (c : Nat) (L : List String) :
    (L.map (fun w => (w, vals.count w))).filter (fun p => p.2 == c) =
      (L.filter (fun w => vals.count w == c)).map (fun w => (w, vals.count w)) := by
  induction L with
  | nil => rfl
  | cons a as ih =>
    simp only [List.map_cons, List.filter_cons]
    cases hcc : (vals.count a == c) with
    | true => simp [hcc, ih]
    | false => simp [hcc, ih]

theorem consolidateField_top_tie (vals : List String) (v1 v2 : String) (rest : List String)
    (hfil : (dedupFirst vals).filter (fun w => vals.count w == vals.count v1) = v1 :: v2 :: rest)
    (hmax : ∀ w ∈ dedupFirst vals, vals.count w ≤ vals.count v1) :
    consolidateField vals = v1 ++ " ó " ++ v2 := by
  set c := vals.count v1 with hc
  have hv1f : v1 ∈ (dedupFirst vals).filter (fun w => vals.count w == c) := by
    rw [hfil]
    simp
  have hv2f : v2 ∈ (dedupFirst vals).filter (fun w => vals.count w == c) := by
    rw [hfil]
    simp
  have hv1d : v1 ∈ dedupFirst vals := List.mem_of_mem_filter hv1f
  have hv2c : vals.count v2 = c := by
    have hx := (List.mem_filter.mp hv2f).2
    simpa using hx
  have htf : (tally vals).filter (fun p => p.2 == c) =
      (v1, c) :: (v2, c) :: rest.map (fun w => (w, vals.count w)) := by
    rw [tally, filter_snd_map_count, hfil]
    simp only [List.map_cons]
    rw [← hc, hv2c]
  have hsf := htf
  rw [← sortDesc_filter_count (tally vals) c] at hsf
  rcases hS : sortDesc (tally vals) with _ | ⟨p, rest1⟩
  · rw [hS] at hsf
    simp at hsf
  · rcases rest1 with _ | ⟨q, rest2⟩
    · rw [hS] at hsf
      rw [List.filter_cons] at hsf
      simp only [List.filter_nil] at hsf
      split at hsf
      · simp at hsf
      · simp at hsf
    · rw [hS] at hsf
      have hperm := sortDesc_perm (tally vals)
      have hpw := sortDesc_pairwise (tally vals)
      rw [hS] at hperm hpw
      have hpT : p ∈ tally vals := hperm.subset (by simp)
      have hqT : q ∈ tally vals := hperm.subset (by simp)
      obtain ⟨hp1, hp2⟩ := (mem_tally vals p).mp hpT
      obtain ⟨hq1, hq2⟩ := (mem_tally vals q).mp hqT
      have hple : p.2 ≤ c := by
        rw [hp2]
        exact hmax p.1 hp1
      have hqle : q.2 ≤ c := by
        rw [hq2]
        exact hmax q.1 hq1
      have hv1T : (v1, c) ∈ tally vals := by
        rw [mem_tally]
        exact ⟨hv1d, hc⟩
      have hv1S : (v1, c) ∈ p :: q :: rest2 := hperm.mem_iff.mpr hv1T
      rw [List.pairwise_cons] at hpw
      obtain ⟨hpw1, hpw2⟩ := hpw
      have hpc : p.2 = c := by
        rcases List.mem_cons.mp hv1S with he | hm
        · rw [← he]
        · exact le_antisymm hple (hpw1 _ hm)
      have hqc : q.2 = c := by
        by_contra hne
        have hrest : rest2.filter (fun r => r.2 == c) = [] := by
          rw [List.filter_eq_nil_iff]
          intro r hr
          have hrq : r.2 ≤ q.2 := (List.pairwise_cons.mp hpw2).1 r hr
          simp only [beq_iff_eq]
          omega
        rw [List.filter_cons, List.filter_cons, hrest] at hsf
        rw [if_pos (by simp [hpc]), if_neg (by simp [hne])] at hsf
        simp at hsf
      have hfilS : (p :: q :: rest2).filter (fun r => r.2 == c) =
          p :: q :: rest2.filter (fun r => r.2 == c) := by
        rw [List.filter_cons, List.filter_cons, if_pos (by simp [hpc]), if_pos (by simp [hqc])]
      rw [hfilS] at hsf
      injection hsf with h1 hsf2
      injection hsf2 with h2 hsf3
      subst h1
      subst h2
      have hvne : vals.isEmpty = false := by
        have hv1m : v1 ∈ vals := (mem_dedupFirst vals v1).mp hv1d
        cases vals
        · simp at hv1m
        · rfl
      simp [consolidateField, mostCommon2, hvne, hS, List.take]

/-- The store after fanning out a record tagged `#jam` into an empty
spreadsheet via `append_row`. -/
def c1TaggedOut : Store :=
  appendRow emptyStore "2024-01-01T00:00:00+00:00" "alice" "chat" "Artist" "Title"
    "https://soundcloud.com/artist/track" "https://t.me/chat/1" "#jam" "" "" "" "" ""

/-- The store after fanning out the same record with no tags. -/
def c1UntaggedOut : Store :=
  appendRow emptyStore "2024-01-01T00:00:00+00:00" "alice" "chat" "Artist" "Title"
    "https://soundcloud.com/artist/track" "https://t.me/chat/1" "" "" "" "" "" ""

/-- C1: the untagged half of the claim holds (a record with no tags lands
in Master and in Undefined), but the tagged half does not: a record
tagged `#jam` lands in Master, in `Jam`, and ALSO in `Undefined`, because
`append_row` ends with an unconditional append-to-Undefined block
(lines 424-425) that runs in the tagged branch as well.  This refutes
"a record with tags ... NOT in Undefined". -/
theorem c1_tagged_record_also_lands_in_undefined :
    sheetHasUrl c1UntaggedOut "Master" "https://soundcloud.com/artist/track" = true ∧
    sheetHasUrl c1UntaggedOut "Undefined" "https://soundcloud.com/artist/track" = true ∧
    sheetHasUrl c1TaggedOut "Master" "https://soundcloud.com/artist/track" = true ∧
    sheetHasUrl c1TaggedOut "Jam" "https://soundcloud.com/artist/track" = true ∧
    sheetHasUrl c1TaggedOut "Undefined" "https://soundcloud.com/artist/track" = true :=
  ⟨rfl, rfl, rfl, rfl, rfl⟩

/-- A first data row appended to a fresh Master sheet. -/
def c2RowA : List String :=
  ["t1", "alice", "chat", "", "soundcloud", "Art", "Tit", "https://soundcloud.com/u1",
   "", "", "", "", "", ""]

/-- A second data row appended after the first. -/
def c2RowB : List String :=
  ["t2", "bob", "chat", "", "soundcloud", "Art", "Tit", "https://soundcloud.com/u2",
   "", "", "", "", "", ""]

/-- The sheet after one append to a fresh destination. -/
def c2Once : Store := appendRowToSheet emptyStore "Master" c2RowA

/-- The sheet after a second append to the same destination. -/
def c2Twice : Store := appendRowToSheet c2Once "Master" c2RowB

/-- C2: appending is not row-preserving.  The first append widens the
header with `Tono`/`BPM` (ensure_columns); the second append's
`ensure_headers_in_sheet` then sees a first row different from
`HEADERS_MASTER` and calls `ws.clear()`, deleting the previously
appended data row: after two appends the first row is gone.  This
refutes "after any sequence of appends to one destination, every
previously appended row is still present". -/
theorem c2_second_append_erases_prior_row :
    ((findWsStore c2Once "Master").getD ⟨[]⟩).rows.contains c2RowA = true ∧
    ((findWsStore c2Twice "Master").getD ⟨[]⟩).rows.contains c2RowA = false ∧
    ((findWsStore c2Twice "Master").getD ⟨[]⟩).rows.contains c2RowB = true :=
  ⟨rfl, rfl, rfl⟩

/-- The command text used for the concrete double-ingestion run. -/
def c3Text : String := "/add https://soundcloud.com/a/b"

/-- First ingestion of `c3Text` into the empty store. -/
def c3First : Outcome × Store := addCmd emptyStore c3Text emptyMeta "t1" "u" "c" "m"

/-- Second ingestion of the same text against the resulting store. -/
def c3Second : Outcome × Store := addCmd c3First.2 c3Text emptyMeta "t2" "u" "c" "m"

/-- The passive-mode message used for the concrete double-ingestion run. -/
def c3PText : String := "#ascucha https://soundcloud.com/c/d"

/-- First passive ingestion of `c3PText` into the empty store. -/
def c3PFirst : Outcome × Store := catchLinks emptyStore c3PText emptyMeta "t1" "u" "c" "m"

/-- Second passive ingestion of the same message. -/
def c3PSecond : Outcome × Store := catchLinks c3PFirst.2 c3PText emptyMeta "t2" "u" "c" "m"

/-- C3: in both ingestion modes, when the primary URL is already present
in Master (key column or dedup cache, i.e. `row_exists_by_url_in_sheet`
answers true), the outcome is the duplicate reply and the spreadsheet is
left exactly as it was (only the in-memory cache may be refreshed); and
concretely, ingesting the same URL twice — by command or passively —
yields `recorded` then `duplicateUrl` with no sheet change on the second
run. -/
theorem c3_duplicate_short_circuit :
    (∀ (s : Store) (text : String) (md : Enhanced) (ts sb sc ml cmd rest firstUrl : String)
       (restUrls : List String) (p : String),
       splitMax1 (pyStrip text) = some (cmd, rest) →
       findUrls rest.toList = firstUrl :: restUrls →
       detectPlatform firstUrl = some p →
       (rowExistsByUrlInSheet s firstUrl MASTER_SHEET).1 = true →
       (addCmd s text md ts sb sc ml).1 = Outcome.duplicateUrl ∧
       ((addCmd s text md ts sb sc ml).2).sheets = s.sheets) ∧
    (∀ (s : Store) (text : String) (md : Enhanced) (ts sb sc ml firstUrl : String)
       (restUrls : List String) (p : String),
       findAscLinks text.toList = firstUrl :: restUrls →
       detectPlatform firstUrl = some p →
       (rowExistsByUrlInSheet s firstUrl MASTER_SHEET).1 = true →
       (catchLinks s text md ts sb sc ml).1 = Outcome.duplicateUrl ∧
       ((catchLinks s text md ts sb sc ml).2).sheets = s.sheets) ∧
    (c3First.1 = Outcome.recorded ∧
     c3Second.1 = Outcome.duplicateUrl ∧
     c3Second.2.sheets = c3First.2.sheets) ∧
    (c3PFirst.1 = Outcome.recorded ∧
     c3PSecond.1 = Outcome.duplicateUrl ∧
     c3PSecond.2.sheets = c3PFirst.2.sheets) := by
  refine ⟨?_, ?_, ⟨rfl, rfl, rfl⟩, ⟨rfl, rfl, rfl⟩⟩
  · intro s text md ts sb sc ml cmd rest firstUrl restUrls p h1 h2 h3 h4
    rcases hre : rowExistsByUrlInSheet s firstUrl MASTER_SHEET with ⟨b, s1⟩
    rw [hre] at h4
    subst h4
    have hs := rowExists_sheets s firstUrl MASTER_SHEET
    rw [hre] at hs
    constructor
    · simp only [addCmd, h1, h2, h3, hre]
    · simp only [addCmd, h1, h2, h3, hre]
      exact hs
  · intro s text md ts sb sc ml firstUrl restUrls p h2 h3 h4
    rcases hre : rowExistsByUrlInSheet s firstUrl MASTER_SHEET with ⟨b, s1⟩
    rw [hre] at h4
    subst h4
    have hs := rowExists_sheets s firstUrl MASTER_SHEET
    rw [hre] at hs
    constructor
    · simp only [catchLinks, h2, h3, hre]
    · simp only [catchLinks, h2, h3, hre]
      exact hs

/-- A Master sheet already holding `https://soundcloud.com/u1` in its key
column, with an empty cache. -/
def c3WitnessStore : Store :=
  ⟨[("Master", ⟨[HEADERS_MASTER ++ ["Tono", "BPM"],
     ["t1", "alice", "chat", "", "soundcloud", "Art", "Tit", "https://soundcloud.com/u1",
      "", "", "", "", "", ""]]⟩)], []⟩

/-- Witness for C3: the short-circuit theorem applied at a concrete
store whose Master already holds the URL. -/
theorem c3_duplicate_short_circuit_witness :
    (addCmd c3WitnessStore "/add https://soundcloud.com/u1" emptyMeta "t" "u" "c" "m").1 =
      Outcome.duplicateUrl ∧
    ((addCmd c3WitnessStore "/add https://soundcloud.com/u1" emptyMeta "t" "u" "c" "m").2).sheets =
      c3WitnessStore.sheets :=
  c3_duplicate_short_circuit.1 c3WitnessStore "/add https://soundcloud.com/u1" emptyMeta
    "t" "u" "c" "m" "/add" "https://soundcloud.com/u1" "https://soundcloud.com/u1" [] "soundcloud"
    rfl rfl rfl rfl

/-- A Master sheet already holding `https://soundcloud.com/u1` (with the
widened 14-column header) and no `Jam` sheet; the dedup cache is empty. -/
def c4Store : Store :=
  ⟨[("Master", ⟨[HEADERS_MASTER ++ ["Tono", "BPM"],
     ["t1", "alice", "chat", "", "soundcloud", "Art", "Tit", "https://soundcloud.com/u1",
      "", "", "", "", "", ""]]⟩)], []⟩

/-- Re-submission of the already-recorded URL, now tagged `#jam`. -/
def c4Run : Outcome × Store := addCmd c4Store "/add https://soundcloud.com/u1 #jam" emptyMeta "t" "u" "c" "m"

/-- C4 counterexample: re-submitting a message whose URL is already in
Master but whose tag destination `Jam` is missing does NOT append to
`Jam`: `add_cmd` short-circuits at the Master duplicate check (line 458)
before `append_row` is ever reached, so the outcome is the duplicate
reply and the spreadsheet is untouched — no `Jam` sheet exists
afterwards.  This refutes the claim as stated. -/
theorem c4_resubmission_skips_missing_tag_destinations :
    c4Run.1 = Outcome.duplicateUrl ∧
    findWsStore c4Run.2 "Jam" = none ∧
    c4Run.2.sheets = c4Store.sheets :=
  ⟨rfl, rfl, rfl⟩

/-- C4 as amended: the self-healing fan-out exists only inside the
`append_row` routine itself.  If `append_row` is invoked with a URL
already present in Master and a single tag whose normalized destination
is missing that URL, it skips the Master append (Master's sheet list is
unchanged) and still appends the record to the missing tag
destination. -/
theorem c4_appendRow_heals_missing_tag_destination
    (s s1 s2 : Store) (ts sb sc artist title url ml tagsStr notesStr album year key bpm : String)
    (tag sheetNm : String)
    (h1 : rowExistsByUrlInSheet s url MASTER_SHEET = (true, s1))
    (htags : pySplit tagsStr = [tag])
    (h0 : (tag == "") = false)
    (hA : (tag == "#ascucha") = false)
    (hnm : (String.mk (tag.toList.dropWhile (fun ch => ch == '#')) == "") = false)
    (hname : normSheetName (String.mk (tag.toList.dropWhile (fun ch => ch == '#'))) = sheetNm)
    (hM : sheetNm ≠ MASTER_SHEET) (hU : sheetNm ≠ "Undefined")
    (h2 : rowExistsByUrlInSheet s1 url sheetNm = (false, s2)) :
    findWsStore (appendRow s ts sb sc artist title url ml tagsStr notesStr album year key bpm)
        MASTER_SHEET = findWsStore s MASTER_SHEET ∧
    ∃ ws, findWsStore (appendRow s ts sb sc artist title url ml tagsStr notesStr album year key bpm)
        sheetNm = some ws ∧
      mkRow ts sb sc artist title url ml tagsStr notesStr album year key bpm ∈ ws.rows := by
  have hs1 : s1.sheets = s.sheets := by
    have hx := rowExists_sheets s url MASTER_SHEET
    rw [h1] at hx
    exact hx
  have hs2 : s2.sheets = s1.sheets := by
    have hx := rowExists_sheets s1 url sheetNm
    rw [h2] at hx
    exact hx
  have hred : appendRow s ts sb sc artist title url ml tagsStr notesStr album year key bpm =
      (match rowExistsByUrlInSheet
          (appendRowToSheet s2 sheetNm
            (mkRow ts sb sc artist title url ml tagsStr notesStr album year key bpm))
          url "Undefined" with
       | (true, s5) => s5
       | (false, s5) => appendRowToSheet s5 "Undefined"
          (mkRow ts sb sc artist title url ml tagsStr notesStr album year key bpm)) := by
    simp only [appendRow, h1, htags, List.foldl_cons, List.foldl_nil, h0, hA, hnm, hname, h2,
      Bool.not_false, Bool.and_self, if_true, Bool.false_eq_true, if_false]
  set row := mkRow ts sb sc artist title url ml tagsStr notesStr album year key bpm with hrow
  have hfanM : findWsStore (appendRowToSheet s2 sheetNm row) MASTER_SHEET =
      findWsStore s MASTER_SHEET := by
    rw [appendRowToSheet_other s2 sheetNm row MASTER_SHEET (Ne.symm hM)]
    rw [findWsStore_congr s2 s (by rw [hs2, hs1]) MASTER_SHEET]
  obtain ⟨rs, hfanS⟩ := appendRowToSheet_self s2 sheetNm row
  rcases h3 : rowExistsByUrlInSheet (appendRowToSheet s2 sheetNm row) url "Undefined" with ⟨bU, s5⟩
  have hs5 : s5.sheets = (appendRowToSheet s2 sheetNm row).sheets := by
    have hx := rowExists_sheets (appendRowToSheet s2 sheetNm row) url "Undefined"
    rw [h3] at hx
    exact hx
  cases bU with
  | true =>
    rw [hred, h3]
    constructor
    · rw [findWsStore_congr s5 (appendRowToSheet s2 sheetNm row) hs5 MASTER_SHEET]
      exact hfanM
    · refine ⟨⟨rs ++ [row]⟩, ?_, ?_⟩
      · rw [findWsStore_congr s5 (appendRowToSheet s2 sheetNm row) hs5 sheetNm]
        exact hfanS
      · simp
  | false =>
    rw [hred, h3]
    constructor
    · rw [appendRowToSheet_other s5 "Undefined" row MASTER_SHEET (by decide)]
      rw [findWsStore_congr s5 (appendRowToSheet s2 sheetNm row) hs5 MASTER_SHEET]
      exact hfanM
    · refine ⟨⟨rs ++ [row]⟩, ?_, ?_⟩
      · rw [appendRowToSheet_other s5 "Undefined" row sheetNm hU]
        rw [findWsStore_congr s5 (appendRowToSheet s2 sheetNm row) hs5 sheetNm]
        exact hfanS
      · simp

/-- The store `c4Store` after the Master dedup lookup rebuilt the cache. -/
def c4CacheStore : Store := ⟨c4Store.sheets, ["URL", "https://soundcloud.com/u1"]⟩

/-- Witness for the amended C4: the healing theorem applied at the
concrete store whose Master holds the URL and whose `Jam` sheet is
missing. -/
theorem c4_appendRow_heals_missing_tag_destination_witness :
    findWsStore (appendRow c4Store "t" "u" "c" "Art" "Tit" "https://soundcloud.com/u1" "m"
        "#jam" "" "" "" "" "") MASTER_SHEET = findWsStore c4Store MASTER_SHEET ∧
    ∃ ws, findWsStore (appendRow c4Store "t" "u" "c" "Art" "Tit" "https://soundcloud.com/u1" "m"
        "#jam" "" "" "" "" "") "Jam" = some ws ∧
      mkRow "t" "u" "c" "Art" "Tit" "https://soundcloud.com/u1" "m" "#jam" "" "" "" "" "" ∈ ws.rows :=
  c4_appendRow_heals_missing_tag_destination c4Store c4CacheStore c4CacheStore
    "t" "u" "c" "Art" "Tit" "https://soundcloud.com/u1" "m" "#jam" "" "" "" "" ""
    "#jam" "Jam" rfl rfl rfl rfl rfl rfl (by decide) (by decide) rfl

/-- C6: an ingestion whose primary URL has no recognized platform is
rejected with the unrecognized-platform outcome and the store is
returned exactly as it was (zero writes), in both modes; and
classification is a total function that answers `none` on unknown hosts
and on malformed URLs (the Python wrapper catches every exception). -/
theorem c6_unrecognized_platform_rejected :
    (∀ (s : Store) (text : String) (md : Enhanced) (ts sb sc ml cmd rest firstUrl : String)
       (restUrls : List String),
       splitMax1 (pyStrip text) = some (cmd, rest) →
       findUrls rest.toList = firstUrl :: restUrls →
       detectPlatform firstUrl = none →
       addCmd s text md ts sb sc ml = (Outcome.unrecognizedPlatform, s)) ∧
    (∀ (s : Store) (text : String) (md : Enhanced) (ts sb sc ml firstUrl : String)
       (restUrls : List String),
       findAscLinks text.toList = firstUrl :: restUrls →
       detectPlatform firstUrl = none →
       catchLinks s text md ts sb sc ml = (Outcome.unrecognizedPlatform, s)) ∧
    detectPlatform "https://example.com/song" = none ∧
    detectPlatform "http://[::1" = none ∧
    detectPlatform "not a url" = none := by
  refine ⟨?_, ?_, rfl, rfl, rfl⟩
  · intro s text md ts sb sc ml cmd rest firstUrl restUrls h1 h2 h3
    simp only [addCmd, h1, h2, h3]
  · intro s text md ts sb sc ml firstUrl restUrls h2 h3
    simp only [catchLinks, h2, h3]

/-- Witness for C6: the rejection theorem applied at the empty store and
an `example.com` URL. -/
theorem c6_unrecognized_platform_rejected_witness :
    addCmd emptyStore "/add https://example.com/song" emptyMeta "t" "u" "c" "m" =
      (Outcome.unrecognizedPlatform, emptyStore) :=
  c6_unrecognized_platform_rejected.1 emptyStore "/add https://example.com/song" emptyMeta
    "t" "u" "c" "m" "/add" "https://example.com/song" "https://example.com/song" [] rfl rfl rfl

/-- C5: the consensus consolidation behaves as specified, per field: the
three fields are each the consolidation of the non-empty values supplied
for them; no value gives `""`; a single distinct value gives that value;
whenever the two most frequent values tie in count — stated generally:
`v1` and `v2` are the first two values, in first-observation order, whose
count equals the maximal count — the result is `"v1 ó v2"` (the
two-distinct-value special case is also given); a unique most-frequent
value wins outright; and the concrete examples hold, including a
three-distinct-value top tie. -/
theorem c5_consolidate_consensus :
    (∀ ms : List ProviderMeta,
       consolidateMetadata ms =
         { year := consolidateField ((ms.map (fun m => m.year)).filter (fun v => !(v == ""))),
           bpm := consolidateField ((ms.map (fun m => m.bpm)).filter (fun v => !(v == ""))),
           key := consolidateField ((ms.map (fun m => m.key)).filter (fun v => !(v == ""))) }) ∧
    consolidateField [] = "" ∧
    (∀ (vals : List String) (w : String), vals ≠ [] → (∀ x ∈ vals, x = w) →
       consolidateField vals = w) ∧
    (∀ (vals : List String) (v1 v2 : String) (rest : List String),
       (dedupFirst vals).filter (fun w => vals.count w == vals.count v1) = v1 :: v2 :: rest →
       (∀ w ∈ dedupFirst vals, vals.count w ≤ vals.count v1) →
       consolidateField vals = v1 ++ " ó " ++ v2) ∧
    (∀ (vals : List String) (v1 v2 : String), dedupFirst vals = [v1, v2] →
       vals.count v1 = vals.count v2 → consolidateField vals = v1 ++ " ó " ++ v2) ∧
    (∀ (vals : List String) (v : String), v ∈ dedupFirst vals →
       (∀ w ∈ dedupFirst vals, w ≠ v → vals.count w < vals.count v) →
       consolidateField vals = v) ∧
    consolidateField ["2001", "2001", "2002"] = "2001" ∧
    consolidateField ["2001", "2002"] = "2001 ó 2002" ∧
    consolidateField ["2001", "2001", "2002", "2002", "1999"] = "2001 ó 2002" ∧
    (consolidateMetadata [{ year := "2001" }, { year := "2001" }, { year := "2002" }]).year = "2001" ∧
    (consolidateMetadata [{ year := "2001" }, { year := "2002" }]).year = "2001 ó 2002" :=
  ⟨fun _ => rfl, rfl, consolidateField_all_eq, consolidateField_top_tie,
   consolidateField_pair_tie, consolidateField_unique_max, rfl, rfl, rfl, rfl, rfl⟩

/-- Witness for C5: the general top-two tie applied at a list with three
distinct values whose top two counts tie, plus the spec's two concrete
year lists through the tie and majority cases. -/
theorem c5_consolidate_consensus_witness :
    consolidateField ["2001", "2001", "2002", "2002", "1999"] = "2001 ó 2002" ∧
    consolidateField ["2001", "2002"] = "2001 ó 2002" ∧
    consolidateField ["2001", "2001", "2002"] = "2001" :=
  ⟨c5_consolidate_consensus.2.2.2.1 ["2001", "2001", "2002", "2002", "1999"] "2001" "2002" []
     rfl (by decide),
   c5_consolidate_consensus.2.2.2.2.1 ["2001", "2002"] "2001" "2002" rfl rfl,
   c5_consolidate_consensus.2.2.2.2.2.1 ["2001", "2001", "2002"] "2001" (by decide) (by decide)⟩

/-- A command-mode ingestion carrying the tag `#jam` into an empty store. -/
def c7Run : Outcome × Store :=
  addCmd emptyStore "/add https://soundcloud.com/a/b #jam" emptyMeta "t" "u" "c" "m"

/-- C7: the persisted Tags field is NOT `"#jam"` but `"##jam"`:
`TAG_RE.findall` returns the token with its `#` included (the pattern has
no capture group), and the f-string `f"#{t}"` prepends a second `#`.
The same mismatch makes the `t.lower() != "ascucha"` filter on the same
lines dead code, showing the code expected bare words here.  The record
is still recorded, with `##jam` stored in the Tags column (index 8) of
the Master row. -/
theorem c7_tags_field_double_hash :
    tagsStrOf "/add https://soundcloud.com/a/b #jam" = "##jam" ∧
    c7Run.1 = Outcome.recorded ∧
    ((findWsStore c7Run.2 "Master").getD ⟨[]⟩).rows.any
      (fun r => r.getD 8 "" == "##jam") = true ∧
    ((findWsStore c7Run.2 "Master").getD ⟨[]⟩).rows.any
      (fun r => r.getD 8 "" == "#jam") = false :=
  ⟨rfl, rfl, rfl, rfl⟩

theorem findTagsGo_not_ascucha : ∀ (fuel : Nat) (cs : List Char),
    ((findTagsGo fuel cs).contains "#ascucha") = false := by
  intro fuel
  induction fuel with
  | zero => intro cs; cases cs <;> rfl
  | succ fuel ih =>
    intro cs
    cases cs with
    | nil => rfl
    | cons c cs =>
      simp only [findTagsGo]
      split
      · split
        · exact ih cs
        · split
          · exact ih cs
          · rename_i hw
            have hne : (("#ascucha" : String) == String.mk ('#' :: cs.takeWhile isWordChar)) = false := by
              rw [beq_eq_false_iff_ne]
              intro he
              rw [show ("#ascucha" : String) = String.mk ('#' :: "ascucha".toList) from rfl] at he
              injection he with hdata
              injection hdata with hhead htail
              exact hw (by rw [beq_iff_eq]; exact htail.symm)
            simp only [List.contains_cons, hne, Bool.false_or]
            exact ih (cs.drop (cs.takeWhile isWordChar).length)
      · exact ih cs

/-- A passive-mode message whose control tag is written `#Ascucha`. -/
def c8Run : Outcome × Store :=
  catchLinks emptyStore "#Ascucha https://soundcloud.com/a/b" emptyMeta "t" "u" "c" "m"

/-- C8: the lowercase control tag `#ascucha` is indeed never among the
extracted hashtag tokens (the regex lookahead guarantees it for every
input), but the exclusion is case-sensitive: `#Ascucha` passes the
lookahead, survives the dead `t.lower() != "ascucha"` filter (the token
still carries its `#`), and passive ingestion of
`"#Ascucha https://soundcloud.com/a/b"` — which the case-insensitive
`ASC_LINK_RE` happily gates in — creates the tag destination `Ascucha`.
This refutes "whatever the letter case it is written in". -/
theorem c8_control_tag_exclusion_case_sensitive :
    (∀ cs : List Char, ((findTags cs).contains "#ascucha") = false) ∧
    findTags "hola #Ascucha".toList = ["#Ascucha"] ∧
    tagsStrOf "#Ascucha https://soundcloud.com/a/b" = "##Ascucha" ∧
    c8Run.1 = Outcome.recorded ∧
    (findWsStore c8Run.2 "Ascucha").isSome = true :=
  ⟨fun cs => findTagsGo_not_ascucha cs.length cs, rfl, rfl, rfl, rfl⟩

/-- C9: the notes for the spec's example are exactly
`"check this https://t.me/chat/42"` — the permalink is kept, the primary
URL and the tag are dropped.  In general, for every message text: any
whitespace token beginning with either Telegram permalink scheme
(`https://t.me/` or `http://t.me/`) survives into the notes fragments;
any token that is a recognized tag, a recognized URL, a meta word, the
command token `/add`, a `#`-initial token, or the control tag in any
case, and that does not begin with a permalink scheme, is excluded from
the notes fragments; and every notes fragment is a token of the input. -/
theorem c9_notes_permalink_preservation :
    extractNotes "check this #jam https://example.com/song https://t.me/chat/42" "" =
      "check this https://t.me/chat/42" ∧
    (∀ (text meta f : String), f ∈ pySplit text →
       (pyStartsWith f "https://t.me/" = true ∨ pyStartsWith f "http://t.me/" = true) →
       f ∈ extractNotesFragments text meta) ∧
    (∀ (text meta f : String),
       (f ∈ findTags text.toList ∨ f ∈ findUrls text.toList ∨ f ∈ pySplit meta ∨
        f = "/add" ∨ pyStartsWith f "#" = true ∨ pyLower f = "#ascucha") →
       pyStartsWith f "https://t.me/" = false → pyStartsWith f "http://t.me/" = false →
       ¬ f ∈ extractNotesFragments text meta) ∧
    (∀ (text meta f : String), f ∈ extractNotesFragments text meta → f ∈ pySplit text) := by
  refine ⟨rfl, ?_, ?_, ?_⟩
  · intro text meta f hf hst
    simp only [extractNotesFragments]
    rw [List.mem_filter]
    refine ⟨hf, ?_⟩
    unfold notesKeep
    split
    · rcases hst with hst | hst
      · simp [hst]
      · simp [hst]
    · rfl
  · intro text meta f hex h1 h2 hmem
    simp only [extractNotesFragments] at hmem
    have hk := (List.mem_filter.mp hmem).2
    unfold notesKeep at hk
    rw [if_pos hex, h1, h2] at hk
    simp at hk
  · intro text meta f hf
    simp only [extractNotesFragments] at hf
    exact (List.mem_filter.mp hf).1

/-- Witness for C9: retention applied at both permalink schemes and
exclusion applied at the example's tag token. -/
theorem c9_notes_permalink_preservation_witness :
    "https://t.me/chat/42" ∈ extractNotesFragments
      "check this #jam https://example.com/song https://t.me/chat/42" "" ∧
    "http://t.me/x/1" ∈ extractNotesFragments
      "check this http://t.me/x/1 https://example.com/song" "" ∧
    ¬ "#jam" ∈ extractNotesFragments
      "check this #jam https://example.com/song https://t.me/chat/42" "" :=
  ⟨c9_notes_permalink_preservation.2.1
     "check this #jam https://example.com/song https://t.me/chat/42" ""
     "https://t.me/chat/42" (by decide) (Or.inl rfl),
   c9_notes_permalink_preservation.2.1
     "check this http://t.me/x/1 https://example.com/song" ""
     "http://t.me/x/1" (by decide) (Or.inr rfl),
   c9_notes_permalink_preservation.2.2.1
     "check this #jam https://example.com/song https://t.me/chat/42" ""
     "#jam" (Or.inl (by decide)) rfl rfl⟩

/-- C10: the duplicate check strips both sides — any non-empty cell of
column 8 whose stripped value equals the stripped query URL makes the
check answer true; the answer depends only on column 8 and the cache
(never on the header's labelling); and when every column-8 cell is empty
(and the cache does not hit) the check answers false. -/
theorem c10_rowExists_strips_and_reads_col8 :
    (∀ (s : Store) (url name : String) (ws : Worksheet) (cell : String),
       findWsStore s name = some ws → cell ∈ colValues ws 8 → (cell == "") = false →
       pyStrip cell = pyStrip url →
       (rowExistsByUrlInSheet s url name).1 = true) ∧
    (∀ (s t : Store) (url name : String) (ws wt : Worksheet),
       findWsStore s name = some ws → findWsStore t name = some wt →
       colValues ws 8 = colValues wt 8 → s.cache = t.cache →
       (rowExistsByUrlInSheet s url name).1 = (rowExistsByUrlInSheet t url name).1) ∧
    (∀ (s : Store) (url name : String) (ws : Worksheet),
       findWsStore s name = some ws → (∀ c ∈ colValues ws 8, c = "") →
       ((name == MASTER_SHEET) && s.cache.contains url) = false →
       (rowExistsByUrlInSheet s url name).1 = false) := by
  refine ⟨?_, ?_, ?_⟩
  · intro s url name ws cell hws hmem hne hstrip
    have hmem2 : pyStrip url ∈ ((colValues ws 8).filter (fun u => !(u == ""))).map pyStrip := by
      rw [List.mem_map]
      refine ⟨cell, ?_, hstrip⟩
      rw [List.mem_filter]
      exact ⟨hmem, by rw [hne]; rfl⟩
    have hcont : (((colValues ws 8).filter (fun u => !(u == ""))).map pyStrip).contains
        (pyStrip url) = true := List.elem_eq_true_of_mem hmem2
    unfold rowExistsByUrlInSheet
    split
    · rfl
    · simp only [hws]
      split
      · exact hcont
      · exact hcont
  · intro s t url name ws wt hs ht hcol hc
    unfold rowExistsByUrlInSheet
    simp only [hs, ht, hcol, hc]
    by_cases hcond : ((name == MASTER_SHEET) && t.cache.contains url) = true
    · rw [if_pos hcond, if_pos hcond]
    · rw [if_neg hcond, if_neg hcond]
      by_cases hm : (name == MASTER_SHEET) = true
      · rw [if_pos hm, if_pos hm]
      · rw [if_neg hm, if_neg hm]
  · intro s url name ws hws hall hcond
    have hf : (colValues ws 8).filter (fun u => !(u == "")) = [] := by
      rw [List.filter_eq_nil_iff]
      intro a ha
      rw [hall a ha]
      simp
    unfold rowExistsByUrlInSheet
    rw [if_neg (by rw [hcond]; simp)]
    simp only [hws, hf]
    split
    · rfl
    · rfl

/-- A destination sheet whose second row holds a whitespace-padded URL in
column 8. -/
def c10Store : Store :=
  ⟨[("Chill", ⟨[[], ["", "", "", "", "", "", "", "  https://soundcloud.com/u9 "]]⟩)], []⟩

/-- Witness for C10: the stripped-comparison direction applied at a
padded stored cell. -/
theorem c10_rowExists_strips_and_reads_col8_witness :
    (rowExistsByUrlInSheet c10Store "https://soundcloud.com/u9" "Chill").1 = true :=
  c10_rowExists_strips_and_reads_col8.1 c10Store "https://soundcloud.com/u9" "Chill"
    ⟨[[], ["", "", "", "", "", "", "", "  https://soundcloud.com/u9 "]]⟩
    "  https://soundcloud.com/u9 " rfl (by decide) rfl rfl

end PsybroBot
